import Mathlib

/-!
Verification of the bAUTO instruction-to-action pipeline.

The Python source (bauto/core/parser.py, bauto/core/code_generator.py,
bauto/core/ai_interface.py, bauto/engine/action_engine.py,
bauto/core/automator.py) is shallowly embedded below.  A Python `str` is
modelled as `List Char`; dictionaries are modelled as association lists with
overwrite-on-insert; mutable object state is passed explicitly; a Python
exception crossing a call boundary is modelled with `Except`.
-/

/-- Python string model: a `str` is a finite sequence of characters. -/
abbrev PyStr := List Char

/-- Shorthand turning a Lean string literal into the model type. -/
def pys (s : String) : PyStr := s.toList

/-- Characters removed by Python `str.strip()` and matched by the regex
class backslash-s (ASCII range): space, tab, newline, carriage return,
vertical tab, form feed. -/
def isPySpace (c : Char) : Bool :=
  c == ' ' || c == '\t' || c == '\n' || c == '\r' || c == '\x0b' || c == '\x0c'

/-- Python `str.lstrip()` with no argument. -/
def lstrip (s : PyStr) : PyStr := s.dropWhile isPySpace

/-- Python `str.rstrip()` with no argument. -/
def rstrip (s : PyStr) : PyStr := (s.reverse.dropWhile isPySpace).reverse

/-- Python `str.strip()` with no argument. -/
def pyStrip (s : PyStr) : PyStr := rstrip (lstrip s)

/-- Python `s.startswith(p)`: `p` is an initial segment of `s`. -/
def startsWithPy : PyStr → PyStr → Bool
  | _, [] => true
  | [], _ :: _ => false
  | c :: s, p :: ps => c == p && startsWithPy s ps

/-- Python substring test `sub in s`. -/
def containsSub (sub : PyStr) : PyStr → Bool
  | [] => startsWithPy [] sub
  | c :: rest => startsWithPy (c :: rest) sub || containsSub sub rest

/-- Accumulator loop behind `splitWs` (Python `str.split()` with no
separator): whitespace runs separate tokens and produce no empty tokens. -/
def splitWsAux : PyStr → PyStr → List PyStr
  | [], cur => if cur == [] then [] else [cur.reverse]
  | c :: rest, cur =>
    if isPySpace c then
      if cur == [] then splitWsAux rest [] else cur.reverse :: splitWsAux rest []
    else splitWsAux rest (c :: cur)

/-- Python `str.split()` with no separator. -/
def splitWs (s : PyStr) : List PyStr := splitWsAux s []

/-- Python `s.split()[-1]`.  In the parser this is only applied to lines that
start with a marker word, so the token list is never empty and the `[]`
default is never reached. -/
def lastTok (s : PyStr) : PyStr := (splitWs s).getLast?.getD []

/-- Python `s.split(chr(10))`: split on the newline character; note that the
empty string yields one empty piece, exactly as in Python. -/
def splitNl : PyStr → List PyStr
  | [] => [[]]
  | c :: rest =>
    if c == '\n' then [] :: splitNl rest
    else
      match splitNl rest with
      | [] => [[c]]
      | x :: xs => (c :: x) :: xs

/-- Python `(chr(10)).join(blocks)`. -/
def joinNl : List PyStr → PyStr
  | [] => []
  | [x] => x
  | x :: y :: rest => x ++ '\n' :: joinNl (y :: rest)

/-- Python `str.lower()` (the instruction keywords involved are ASCII). -/
def pyLower (s : PyStr) : PyStr := s.map Char.toLower

/-- Scanning loop of Python `s.replace(pat, rep)` for a non-empty pattern:
non-overlapping replacement left to right.  The `fuel` argument is an upper
bound on the number of characters still to scan (each step consumes at
least one), making the recursion structural; it is initialised to the
string length, so the zero-fuel branch is never reached on a non-empty
string. -/
def replaceAllGo (pat rep : PyStr) : Nat → PyStr → PyStr
  | _, [] => []
  | 0, s => s
  | fuel + 1, c :: rest =>
    if startsWithPy (c :: rest) pat then
      rep ++ replaceAllGo pat rep fuel (rest.drop (pat.length - 1))
    else
      c :: replaceAllGo pat rep fuel rest

/-- Python `s.replace(pat, rep)` for a non-empty pattern.  The source only
replaces the two non-empty code-fence markers, so the empty-pattern case
(in which Python would interleave `rep` everywhere) never arises and is
mapped to the identity. -/
def replaceAll (pat rep : PyStr) (s : PyStr) : PyStr :=
  match pat with
  | [] => s
  | _ :: _ => replaceAllGo pat rep s.length s

/-- Last `n` elements of a list, Python `l[-n:]` for positive `n`. -/
def lastN (n : Nat) (l : List PyStr) : List PyStr := l.drop (l.length - n)

/-! ## Instruction parser (bauto/core/parser.py, class InstructionParser) -/

/-- Keyword opening a macro definition. -/
def FUNCTION_START : PyStr := pys "DEFINE_FUNCTION"

/-- Keyword closing a macro definition. -/
def FUNCTION_END : PyStr := pys "END_FUNCTION"

/-- Keyword calling a macro. -/
def CALL_FUNCTION : PyStr := pys "CALL"

/-- Comment marker. -/
def HASH : PyStr := pys "#"

/-- Model of the Python dict `self.functions`: an association list. -/
abbrev FuncMap := List (PyStr × List PyStr)

/-- Dict lookup `m[k]` / `k in m`. -/
def lookupFn : FuncMap → PyStr → Option (List PyStr)
  | [], _ => none
  | (k, v) :: rest, name => if k == name then some v else lookupFn rest name

/-- Dict assignment `m[k] = v`: overwrite an existing binding, else append. -/
def setFn : FuncMap → PyStr → List PyStr → FuncMap
  | [], k, v => [(k, v)]
  | (k0, v0) :: rest, k, v =>
    if k0 == k then (k, v) :: rest else (k0, v0) :: setFn rest k v

/-- Inner `while` loop of `InstructionParser._extract_functions`: consume
lines into a macro body until a line whose stripped form starts with the end
marker (that line is then also consumed, by the outer `i += 1`); blank and
comment lines are dropped; with no end marker the body runs to end of
input. -/
def extractBody : List PyStr → List PyStr × List PyStr
  | [] => ([], [])
  | l :: rest =>
    let s := pyStrip l
    if startsWithPy s FUNCTION_END then ([], rest)
    else
      let r := extractBody rest
      (if s != [] && !startsWithPy s HASH then s :: r.1 else r.1, r.2)
/-- Outer loop of `InstructionParser._extract_functions`: record each macro
definition, a later definition of the same name overwriting the earlier
one.  The `fuel` argument bounds the number of remaining lines (the inner
loop hands back a suffix, so each step strictly shortens the list), making
the recursion structural; it is initialised to the line count and the
zero-fuel branch is never reached. -/
def extractFunctionsGo : Nat → List PyStr → FuncMap → FuncMap
  | _, [], fns => fns
  | 0, _ :: _, fns => fns
  | fuel + 1, l :: rest, fns =>
    let s := pyStrip l
    if s == [] || startsWithPy s HASH then extractFunctionsGo fuel rest fns
    else if startsWithPy s FUNCTION_START then
      let r := extractBody rest
      extractFunctionsGo fuel r.2 (setFn fns (lastTok s) r.1)
    else extractFunctionsGo fuel rest fns

/-- `InstructionParser._extract_functions`. -/
def extract_functions (lines : List PyStr) (fns : FuncMap) : FuncMap :=
  extractFunctionsGo lines.length lines fns

/-- Loop body of `InstructionParser._build_action_queue`, returning the
entries appended to `self.action_queue` in order: blank lines, comment lines
and marker lines are skipped, a call line appends the called macro body (or
nothing when the name is undefined, which is only logged), and any other
line is appended stripped. -/
def build_action_queue (fns : FuncMap) : List PyStr → List PyStr
  | [] => []
  | l :: rest =>
    let s := pyStrip l
    if s == [] || startsWithPy s HASH then build_action_queue fns rest
    else if startsWithPy s FUNCTION_START || startsWithPy s FUNCTION_END then
      build_action_queue fns rest
    else if startsWithPy s CALL_FUNCTION then
      (match lookupFn fns (lastTok s) with
       | some body => body
       | none => []) ++ build_action_queue fns rest
    else s :: build_action_queue fns rest

/-- Mutable state of an `InstructionParser` object. -/
structure ParserState where
  functions : FuncMap
  action_queue : List PyStr
deriving DecidableEq

/-- State of a freshly constructed parser. -/
def initParser : ParserState := ⟨[], []⟩

/-- `InstructionParser.parse` on an already-split line list: first pass
extracts macros into `self.functions`, second pass appends to the existing
`self.action_queue` (the source never resets either field). -/
def parseLines (st : ParserState) (lines : List PyStr) : ParserState :=
  let fns := extract_functions lines st.functions
  { functions := fns, action_queue := st.action_queue ++ build_action_queue fns lines }

/-- `InstructionParser.parse` on a text block: `instructions.strip()` then
split on line breaks. -/
def parseText (st : ParserState) (text : PyStr) : ParserState :=
  parseLines st (splitNl (pyStrip text))

/-- `InstructionParser.clear`. -/
def parserClear (_ : ParserState) : ParserState := ⟨[], []⟩

/-- `InstructionParser.group_related_actions` loop: an action containing a
continuation cue joins the current block, otherwise the current block is
flushed (joined with newlines) and a new block starts. -/
def groupAux : List PyStr → List PyStr → List PyStr
  | [], cur => if cur == [] then [] else [joinNl cur]
  | a :: rest, cur =>
    let isCont :=
      [pys "then", pys "and", pys "after that", pys "next"].any
        (fun kw => containsSub kw (pyLower a))
    if isCont && cur != [] then groupAux rest (cur ++ [a])
    else if cur == [] then groupAux rest [a]
    else joinNl cur :: groupAux rest [a]

/-- `InstructionParser.group_related_actions`. -/
def group_related_actions (actions : List PyStr) : List PyStr :=
  groupAux actions []

/-! ## Code generator (bauto/core/code_generator.py, class CodeGenerator,
and bauto/core/ai_interface.py, class GeminiProvider) -/

/-- Python truthiness of an optional string argument (`if context:`): both
`None` and the empty string are falsy. -/
def pyTruthy : Option PyStr → Bool
  | none => false
  | some s => s != []

/-- Rendering of an optional string inside an f-string: `None` prints as the
four letters N-o-n-e, a string prints as itself. -/
def fmtOptStr : Option PyStr → PyStr
  | none => pys "None"
  | some s => s

/-- Cache key `f"{instruction}:{context}:{retry_on_error}"` of
`CodeGenerator.generate`. -/
def cacheKey (instruction : PyStr) (context retryErr : Option PyStr) : PyStr :=
  instruction ++ pys ":" ++ fmtOptStr context ++ pys ":" ++ fmtOptStr retryErr

def SYSTEM_PROMPT : PyStr :=
  pys "You are an expert Selenium automation code generator.\n\nIMPORTANT: Generate code that EXECUTES IMMEDIATELY. Do not wrap code in functions or classes unless absolutely necessary.\nIf you must use functions, ALWAYS call them at the end.\n\nYou have access to an automation environment (env) with these methods:\n\nCore Navigation:\n- env.navigate(url) - Navigate to a URL\n- env.wait(seconds) - Wait for specified seconds\n- env.refresh() - Refresh the current page\n\nElement Finding:\n- env.find_element(by=\x27xpath\x27, value=None) - Find single element\n- env.find_elements(by=\x27xpath\x27, value=None) - Find multiple elements\n- env.find_visible_element(by=\x27xpath\x27, value=None) - Find first visible element\n- env.find_element_by_text(text, tag=\x27*\x27) - Find element containing text\n\nElement Interaction:\n- env.click(element) - Click an element\n- env.type_text(element, text) - Type text into element\n- env.clear_and_type(element, text) - Clear then type\n- env.select_option(element, value) - Select dropdown option\n- env.check_checkbox(element, checked=True) - Check/uncheck\n\nPage Interaction:\n- env.scroll(direction) - Scroll page (\x27up\x27, \x27down\x27, \x27top\x27, \x27bottom\x27)\n- env.screenshot(filename) - Take screenshot\n- env.get_page_text() - Get all visible text\n- env.execute_script(script) - Run JavaScript\n\nElement Properties:\n- env.get_text(element) - Get element text\n- env.get_attribute(element, attr) - Get element attribute\n- env.is_visible(element) - Check if element is visible\n- env.is_enabled(element) - Check if element is enabled\n\nGuidelines:\n1. Write DIRECT, EXECUTABLE code - no function definitions unless necessary\n2. Use xpath with contains() for flexible matching: //button[contains(normalize-space(), \x27Click\x27)]\n3. Always use env methods, never call element methods directly\n4. Import Keys from selenium.webdriver.common.keys if needed\n5. Write clean, minimal code without comments\n6. Handle common cases like waiting for elements\n7. If you define a function/class, ALWAYS call it immediately after\n\nCRITICAL: Code must execute immediately. Do NOT leave functions uncalled.\n\nExample (GOOD):\nenv.navigate(\"https://example.com\")\nelement = env.find_element(by=\x27xpath\x27, value=\x27//input\x27)\nenv.type_text(element, \"text\")\n\nExample (BAD - function not called):\ndef main():\n    env.navigate(\"https://example.com\")\n# Missing: main() call\n\nGenerate ONLY executable Python code, no explanations.\n"

/-- `CodeGenerator._build_prompt`. -/
def build_prompt (instruction : PyStr) (context error : Option PyStr) : PyStr :=
  let p0 := SYSTEM_PROMPT ++ pys "\n\n"
  let p1 :=
    if pyTruthy context then
      p0 ++ pys "Previous context:\n" ++ fmtOptStr context ++ pys "\n\n"
    else p0
  let p2 := p1 ++ pys "INSTRUCTION:\n" ++ instruction ++ pys "\n\n"
  let p3 :=
    if pyTruthy error then
      p2 ++ pys "Previous attempt failed with error:\n" ++ fmtOptStr error ++
        pys "\n\n" ++ pys "Fix the error and try again.\n\n"
    else p2
  p3 ++ pys "OUTPUT (Python code only):\n```python\n"

/-- Blank-line collapsing loop of `CodeGenerator._clean_code`: a blank line
directly after another blank line is dropped. -/
def collapseBlanks : List PyStr → Bool → List PyStr
  | [], _ => []
  | l :: rest, prevBlank =>
    let isBlank := pyStrip l == []
    if isBlank && prevBlank then collapseBlanks rest prevBlank
    else l :: collapseBlanks rest isBlank

/-- Normalisation phase of `CodeGenerator._clean_code`: drop code-fence
markers, strip, collapse runs of blank lines, and strip again. -/
def cleanPre (code : PyStr) : PyStr :=
  let c1 := replaceAll (pys "```python") [] code
  let c2 := replaceAll (pys "```") [] c1
  let c3 := pyStrip c2
  pyStrip (joinNl (collapseBlanks (splitNl c3) false))

/-- Regex word character (ASCII part of backslash-w). -/
def isWordChar (c : Char) : Bool := c.isAlphanum || c == '_'

/-- One anchored attempt of the regex used by `_clean_code`: the literal
word `class`, then at least one whitespace character, then a captured
maximal run of word characters. -/
def matchClassAt (s : PyStr) : Option PyStr :=
  if startsWithPy s (pys "class") then
    let rest := s.drop 5
    let ws := rest.takeWhile isPySpace
    if ws == [] then none
    else
      let name := (rest.dropWhile isPySpace).takeWhile isWordChar
      if name == [] then none else some name
  else none

/-- `re.search` for the pattern above: leftmost match wins. -/
def searchClassName : PyStr → Option PyStr
  | [] => none
  | c :: rest =>
    match matchClassAt (c :: rest) with
    | some n => some n
    | none => searchClassName rest

/-- The `has_direct_calls` test of `_clean_code`: some line whose stripped
form is non-empty and starts with none of the five listed prefixes.  Note
that an indented body line of a function qualifies, because the test strips
each line before checking its prefix. -/
def hasDirectCalls (code : PyStr) : Bool :=
  (splitNl code).any fun line =>
    pyStrip line != [] &&
      !([pys "def ", pys "class ", pys "import ", pys "from ", pys "#"].any
        (startsWithPy (pyStrip line)))

/-- Synthetic-invocation phase of `CodeGenerator._clean_code`: when the code
mentions a definition keyword and no line counts as a direct call, append an
invocation following the decision table (class, then `def main`, then
`def automation`); otherwise return the code unchanged. -/
def augmentCode (code : PyStr) : PyStr :=
  let hd := containsSub (pys "def ") code || containsSub (pys "class ") code
  if hd && !hasDirectCalls code then
    if containsSub (pys "class ") code then
      match searchClassName code with
      | some cname =>
        code ++ pys "\n\n# Execute\ninstance = " ++ cname ++
          pys "(env)\nif hasattr(instance, \x27run\x27):\n    instance.run()\nelif hasattr(instance, \x27__call__\x27):\n    instance()"
      | none => code
    else if containsSub (pys "def main") code then
      code ++ pys "\n\n# Execute\nmain(env)"
    else if containsSub (pys "def automation") code then
      code ++ pys "\n\n# Execute\nautomation()"
    else code
  else code

/-- `CodeGenerator._clean_code`. -/
def clean_code (code : PyStr) : PyStr := augmentCode (cleanPre code)

/-- Number of top-level executable statement lines of a snippet: non-empty,
not indented, and not a `def`/`class` header, import or comment line.
Executing a snippet with zero such lines runs only its definition
statements, so it performs no invocation of the defined callable. -/
def topLevelStmtCount (code : PyStr) : Nat :=
  ((splitNl code).filter fun line =>
    line != [] && !isPySpace (line.headD ' ') &&
      !([pys "def ", pys "class ", pys "import ", pys "from ", pys "#"].any
        (startsWithPy line))).length

/-- Dict lookup for the two string-valued caches. -/
def cacheLookup : List (PyStr × PyStr) → PyStr → Option PyStr
  | [], _ => none
  | (k, v) :: rest, key => if k == key then some v else cacheLookup rest key

/-- Dict assignment for the two string-valued caches. -/
def cacheSet : List (PyStr × PyStr) → PyStr → PyStr → List (PyStr × PyStr)
  | [], k, v => [(k, v)]
  | (k0, v0) :: rest, k, v =>
    if k0 == k then (k, v) :: rest else (k0, v0) :: cacheSet rest k v

/-- Combined mutable state of a `CodeGenerator` and its `GeminiProvider`:
the generator flag and snippet cache, the provider response cache, and two
diagnostic counters (invocations of `GeminiProvider.generate`, and actual
model queries `model.generate_content`). -/
structure GenState where
  cache_enabled : Bool
  code_cache : List (PyStr × PyStr)
  prompt_cache : List (PyStr × PyStr)
  provider_calls : Nat
  model_calls : Nat
deriving DecidableEq

/-- Abstraction of the remote model call `self.model.generate_content` plus
`response.text`: given the index of the query (so transient behaviour may
vary between queries) and the prompt, either a fault or the raw response
text. -/
abbrev ModelFn := Nat → PyStr → Except PyStr PyStr

/-- `GeminiProvider.generate` with its default `use_cache=True`: the
invocation counter rises on every call; a cached prompt returns without a
model query; otherwise the response is stripped, de-fenced, stripped again,
cached and returned, and a model fault is re-raised. -/
def providerGenerate (model : ModelFn) (st : GenState) (prompt : PyStr) :
    Except PyStr PyStr × GenState :=
  let st1 := { st with provider_calls := st.provider_calls + 1 }
  match cacheLookup st1.prompt_cache prompt with
  | some t => (Except.ok t, st1)
  | none =>
    match model st1.model_calls prompt with
    | Except.error e =>
      (Except.error e, { st1 with model_calls := st1.model_calls + 1 })
    | Except.ok raw =>
      let t0 := pyStrip raw
      let t := pyStrip (replaceAll (pys "```") [] (replaceAll (pys "```python") [] t0))
      (Except.ok t,
       { st1 with
          model_calls := st1.model_calls + 1,
          prompt_cache := cacheSet st1.prompt_cache prompt t })

/-- Retry loop of `GeminiProvider.generate_with_retry`, counting remaining
attempts: a success returns at once, a fault is retried while attempts
remain and re-raised on the last one. -/
def generateWithRetryGo (model : ModelFn) (prompt : PyStr) :
    Nat → GenState → Except PyStr PyStr × GenState
  | 0, st => (Except.error [], st)
  | k + 1, st =>
    match providerGenerate model st prompt with
    | (Except.ok t, st1) => (Except.ok t, st1)
    | (Except.error e, st1) =>
      if k == 0 then (Except.error e, st1)
      else generateWithRetryGo model prompt k st1

/-- `GeminiProvider.generate_with_retry` with its default `max_retries=3`
(the zero-fuel branch of the loop is unreachable). -/
def generate_with_retry (model : ModelFn) (st : GenState) (prompt : PyStr) :
    Except PyStr PyStr × GenState :=
  generateWithRetryGo model prompt 3 st

/-- `CodeGenerator.generate`: cache check on the joined key precedes any
provider contact; on a miss the prompt is built, the provider queried
through the retry wrapper, the response post-processed, and the result
cached when caching is enabled; a provider fault is logged and re-raised. -/
def cgGenerate (model : ModelFn) (st : GenState) (instruction : PyStr)
    (context retryErr : Option PyStr) : Except PyStr PyStr × GenState :=
  let key := cacheKey instruction context retryErr
  match (if st.cache_enabled then cacheLookup st.code_cache key else none) with
  | some code => (Except.ok code, st)
  | none =>
    let prompt := build_prompt instruction context retryErr
    match generate_with_retry model st prompt with
    | (Except.error e, st1) => (Except.error e, st1)
    | (Except.ok raw, st1) =>
      let code := clean_code raw
      let st2 :=
        if st1.cache_enabled then
          { st1 with code_cache := cacheSet st1.code_cache key code }
        else st1
      (Except.ok code, st2)

/-- `CodeGenerator.clear_cache`. -/
def cgClearCache (st : GenState) : GenState := { st with code_cache := [] }

/-! ## Action execution engine (bauto/engine/action_engine.py, class
ActionEngine) -/

/-- Possible outcomes of running a snippet with `exec` in the prepared
scope: normal termination; a raised exception of Python's ordinary class
`Exception`, carrying its type name, message and the traceback lines of
`traceback.format_exc()`; or a raised `BaseException` that is not an
`Exception` (such as `SystemExit` or `KeyboardInterrupt`), which the
engine's `except Exception` handler does not catch. -/
inductive RunOutcome where
  | ok : RunOutcome
  | exn (kind msg : PyStr) (tb : List PyStr) : RunOutcome
  | fatal (kind msg : PyStr) : RunOutcome
deriving DecidableEq

/-- Semantics oracle for `exec(code, scope)`: what running a given snippet
in the engine's scope does. -/
abbrev ExecSem := PyStr → RunOutcome

/-- `ActionEngine._format_error`: the exception type name and message,
followed by the last five traceback lines that either mention the synthetic
exec frame or are not `File` reference lines. -/
def format_error (kind msg : PyStr) (tb : List PyStr) : PyStr :=
  let relevant := tb.filter fun line =>
    containsSub (pys "<string>") line || !containsSub (pys "File") line
  let formatted := kind ++ pys ": " ++ msg
  if relevant != [] then formatted ++ pys "\n" ++ joinNl (lastN 5 relevant)
  else formatted

/-- Mutable state of an `ActionEngine` object; `screenshots` counts the
capture attempts made by `_save_error_screenshot`. -/
structure ActionEngine where
  screenshot_on_error : Bool
  execution_count : Nat
  screenshots : Nat
deriving DecidableEq

/-- `ActionEngine.execute`: the execution counter always rises; a normal
run returns `(True, None)`; an ordinary exception is formatted, triggers a
best-effort screenshot when configured, and becomes `(False, message)`; a
`BaseException` outside the `Exception` class escapes the handler and
propagates to the caller (`Except.error`), the counter increment having
already happened. -/
def ActionEngine.execute (sem : ExecSem) (e : ActionEngine) (code : PyStr) :
    Except (PyStr × PyStr) (Bool × Option PyStr) × ActionEngine :=
  let e1 := { e with execution_count := e.execution_count + 1 }
  match sem code with
  | RunOutcome.ok => (Except.ok (true, none), e1)
  | RunOutcome.exn kind msg tb =>
    let e2 :=
      if e1.screenshot_on_error then { e1 with screenshots := e1.screenshots + 1 }
      else e1
    (Except.ok (false, some (format_error kind msg tb)), e2)
  | RunOutcome.fatal kind msg => (Except.error (kind, msg), e1)

/-- Semantics refuting the universal form of C4: the snippet
`raise SystemExit` raises a `BaseException` that is not an `Exception`,
exactly what Python's `exec` does with it. -/
def fatalSem : ExecSem := fun c =>
  if c == pys "raise SystemExit" then RunOutcome.fatal (pys "SystemExit") []
  else RunOutcome.ok

/-- Traceback lines produced by the Scenario C snippet. -/
def tbBoom : List PyStr :=
  [pys "Traceback (most recent call last):",
   pys "  File \x22<string>\x22, line 1, in <module>",
   pys "ValueError: boom", pys ""]

/-- Semantics of the Scenario C snippet: `exec` raises
`ValueError: boom`. -/
def semBoom : ExecSem := fun c =>
  if c == pys "raise ValueError(\x27boom\x27)" then
    RunOutcome.exn (pys "ValueError") (pys "boom") tbBoom
  else RunOutcome.ok

/-! ## Orchestrator (bauto/core/automator.py, class BrowserAutomator) -/

/-- Collaborator oracle for the orchestrator run loop, over an abstract
session state `σ` (model handle, caches, browser): `gen` is
`CodeGenerator.generate` called with the action and the previous failure
(`Except.error` models a raised generation fault), `exec` is
`ActionEngine.execute` on the generated snippet, already in its
result-pair form. -/
structure Oracle (σ : Type) where
  gen : σ → PyStr → Option PyStr → Except PyStr PyStr × σ
  exec : σ → PyStr → (Bool × Option PyStr) × σ

/-- Retry loop of `BrowserAutomator._execute_action`, with the remaining
iteration count of `range(retry_attempts)` made explicit; the returned
number counts engine invocations.  A generation fault returns failure at
once; a successful execution returns success; on a failed execution the
error becomes the next attempt's context unless `retry_attempts <= 1`,
which breaks out immediately. -/
def executeActionGo {σ : Type} (o : Oracle σ) (ra : Nat) (action : PyStr) :
    Nat → Option PyStr → σ → Nat → Bool × σ × Nat
  | 0, _, s, cnt => (false, s, cnt)
  | k + 1, lastErr, s, cnt =>
    match o.gen s action lastErr with
    | (Except.error _, s1) => (false, s1, cnt)
    | (Except.ok code, s1) =>
      let r := o.exec s1 code
      if r.1.1 then (true, r.2, cnt + 1)
      else if ra ≤ 1 then (false, r.2, cnt + 1)
      else executeActionGo o ra action k r.1.2 r.2 (cnt + 1)

/-- `BrowserAutomator._execute_action`. -/
def execute_action {σ : Type} (o : Oracle σ) (ra : Nat) (action : PyStr)
    (s : σ) : Bool × σ × Nat :=
  executeActionGo o ra action ra none s 0

/-- Instruction loop of `BrowserAutomator.run` over the parsed action
queue: `all_success` starts true and is cleared by any failed action; when
an action fails and `retry_attempts <= 1` the loop breaks without touching
the remaining actions; the returned number totals engine invocations. -/
def runQueue {σ : Type} (o : Oracle σ) (ra : Nat) :
    List PyStr → σ → Bool × σ × Nat
  | [], s => (true, s, 0)
  | a :: rest, s =>
    let r := execute_action o ra a s
    if r.1 then
      let rr := runQueue o ra rest r.2.1
      (rr.1, rr.2.1, r.2.2 + rr.2.2)
    else if ra ≤ 1 then (false, r.2.1, r.2.2)
    else
      let rr := runQueue o ra rest r.2.1
      (false, rr.2.1, r.2.2 + rr.2.2)

/-- `BrowserAutomator.run` on a pre-split instruction list: parse with the
automator's (persistent) parser, then process the resulting action queue. -/
def bautoRun {σ : Type} (o : Oracle σ) (ra : Nat) (pst : ParserState)
    (instructions : List PyStr) (s : σ) : Bool × σ × Nat :=
  runQueue o ra (parseLines pst instructions).action_queue s

/-- Lines the parser is supposed to emit: already stripped, and not opening
with the comment marker. -/
def GoodLine (e : PyStr) : Prop :=
  pyStrip e = e ∧ startsWithPy e HASH = false

/-- Every macro body recorded in the functions dict consists of good
lines. -/
def FnsGood (fns : FuncMap) : Prop :=
  ∀ n b, lookupFn fns n = some b → ∀ e ∈ b, GoodLine e

/-! ## Supporting lemmas -/

theorem extractBody_snd_length (ls : List PyStr) :
    (extractBody ls).2.length ≤ ls.length := by
  induction ls with
  | nil => simp [extractBody]
  | cons l rest ih =>
    simp only [extractBody]
    split
    · simp
    · split <;> simpa using Nat.le_succ_of_le ih

theorem dropWhile_dropWhile (p : Char → Bool) (l : List Char) :
    (l.dropWhile p).dropWhile p = l.dropWhile p := by
  induction l with
  | nil => rfl
  | cons a t ih =>
    by_cases h : p a = true
    · simp [List.dropWhile, h, ih]
    · simp [List.dropWhile, h]

theorem dropWhile_length (p : Char → Bool) (l : List Char) :
    (l.dropWhile p).length ≤ l.length := by
  induction l with
  | nil => simp
  | cons a t ih =>
    by_cases h : p a = true
    · simp only [List.dropWhile, h]
      exact Nat.le_succ_of_le ih
    · simp [List.dropWhile, h]

theorem dropWhile_self_head (p : Char → Bool) (l : List Char)
    (h : l.dropWhile p = l) : ∀ c, l.head? = some c → p c = false := by
  intro c hc
  cases l with
  | nil => simp at hc
  | cons a t =>
    have hac : a = c := by simpa using hc
    rw [← hac]
    by_cases hp : p a = true
    · exfalso
      simp only [List.dropWhile, hp, if_true] at h
      have hl := dropWhile_length p t
      rw [h] at hl
      simp at hl
    · simpa using hp

theorem dropWhile_eq_self (p : Char → Bool) (l : List Char)
    (h : ∀ c, l.head? = some c → p c = false) : l.dropWhile p = l := by
  cases l with
  | nil => rfl
  | cons a t =>
    have := h a (by simp)
    simp [List.dropWhile, this]

theorem dropWhile_exists_prefix (p : Char → Bool) (l : List Char) :
    ∃ t, t ++ l.dropWhile p = l := by
  induction l with
  | nil => exact ⟨[], rfl⟩
  | cons a t ih =>
    by_cases h : p a = true
    · obtain ⟨u, hu⟩ := ih
      exact ⟨a :: u, by simp [List.dropWhile, h, hu]⟩
    · exact ⟨[], by simp [List.dropWhile, h]⟩

theorem rstrip_exists_suffix (y : PyStr) : ∃ u, rstrip y ++ u = y := by
  obtain ⟨t, ht⟩ := dropWhile_exists_prefix isPySpace y.reverse
  refine ⟨t.reverse, ?_⟩
  have : (t ++ y.reverse.dropWhile isPySpace).reverse = y.reverse.reverse := by
    rw [ht]
  simpa [rstrip, List.reverse_append] using this

theorem lstrip_idem (s : PyStr) : lstrip (lstrip s) = lstrip s :=
  dropWhile_dropWhile isPySpace s

theorem rstrip_idem (y : PyStr) : rstrip (rstrip y) = rstrip y := by
  simp [rstrip, List.reverse_reverse, dropWhile_dropWhile]

theorem lstrip_rstrip (y : PyStr) (hy : lstrip y = y) :
    lstrip (rstrip y) = rstrip y := by
  rcases hz : rstrip y with _ | ⟨c, t⟩
  · rfl
  · obtain ⟨u, hu⟩ := rstrip_exists_suffix y
    rw [hz] at hu
    apply dropWhile_eq_self
    intro d hd
    have hcd : c = d := by simpa using hd
    have hhead : y.head? = some c := by
      rw [← hu]
      rfl
    have hres := dropWhile_self_head isPySpace y hy c hhead
    rwa [hcd] at hres

theorem pyStrip_idem (s : PyStr) : pyStrip (pyStrip s) = pyStrip s := by
  unfold pyStrip
  rw [lstrip_rstrip (lstrip s) (lstrip_idem s), rstrip_idem]

theorem startsWithPy_cons {s : PyStr} {p : Char} {ps : PyStr}
    (h : startsWithPy s (p :: ps) = true) :
    ∃ t, s = p :: t ∧ startsWithPy t ps = true := by
  cases s with
  | nil => simp [startsWithPy] at h
  | cons c t =>
    simp only [startsWithPy, Bool.and_eq_true, beq_iff_eq] at h
    exact ⟨t, by rw [h.1], h.2⟩

theorem startsWithPy_append_self (sub t : PyStr) :
    startsWithPy (sub ++ t) sub = true := by
  induction sub with
  | nil => cases t <;> rfl
  | cons c cs ih => simp [startsWithPy, ih]

theorem startsWithPy_trans {s p2 p1 : PyStr} (h2 : startsWithPy s p2 = true)
    (h1 : startsWithPy p2 p1 = true) : startsWithPy s p1 = true := by
  induction p1 generalizing p2 s with
  | nil => cases s <;> rfl
  | cons a ps ih =>
    obtain ⟨t2, rfl, ht2⟩ := startsWithPy_cons h1
    obtain ⟨t, rfl, ht⟩ := startsWithPy_cons h2
    simp [startsWithPy, ih ht ht2]

theorem containsSub_of_startsWith {sub s : PyStr}
    (h : startsWithPy s sub = true) : containsSub sub s = true := by
  cases s with
  | nil => exact h
  | cons c t => simp [containsSub, h]

theorem containsSub_middle (sub pre post : PyStr) :
    containsSub sub (pre ++ sub ++ post) = true := by
  induction pre with
  | nil =>
    simp only [List.nil_append]
    exact containsSub_of_startsWith (startsWithPy_append_self sub post)
  | cons c t ih =>
    simp only [List.cons_append, containsSub, Bool.or_eq_true]
    exact Or.inr ih

theorem containsSub_mono {p1 p2 s : PyStr} (hp : startsWithPy p2 p1 = true)
    (hs : containsSub p2 s = true) : containsSub p1 s = true := by
  induction s with
  | nil =>
    cases p2 with
    | nil => cases p1 <;> first | exact hs | simp [startsWithPy] at hp
    | cons a b => simp [containsSub, startsWithPy] at hs
  | cons c t ih =>
    simp only [containsSub, Bool.or_eq_true] at hs ⊢
    rcases hs with hs | hs
    · exact Or.inl (startsWithPy_trans hs hp)
    · exact Or.inr (ih hs)

theorem cacheLookup_set_self (m : List (PyStr × PyStr)) (k v : PyStr) :
    cacheLookup (cacheSet m k v) k = some v := by
  induction m with
  | nil => simp [cacheSet, cacheLookup]
  | cons kv rest ih =>
    obtain ⟨k0, v0⟩ := kv
    by_cases h : k0 = k
    · simp [cacheSet, cacheLookup, h]
    · simp only [cacheSet, beq_iff_eq, h, if_false]
      simp [cacheLookup, h, ih]

theorem lookupFn_setFn (m : FuncMap) (k n : PyStr) (v : List PyStr) :
    lookupFn (setFn m k v) n = if n = k then some v else lookupFn m n := by
  induction m with
  | nil =>
    simp only [setFn, lookupFn, beq_iff_eq]
    by_cases h : n = k
    · simp [h]
    · rw [if_neg (fun hh => h hh.symm), if_neg h]
  | cons kv rest ih =>
    obtain ⟨k0, v0⟩ := kv
    by_cases h0 : k0 = k
    · subst h0
      simp only [setFn, beq_iff_eq, if_pos rfl, lookupFn]
      by_cases hn : n = k0
      · simp [hn]
      · rw [if_neg (fun hh => hn hh.symm), if_neg hn,
          if_neg (fun hh => hn hh.symm)]

    · simp only [setFn, beq_iff_eq, if_neg h0, lookupFn]
      rw [ih]
      by_cases hn : k0 = n
      · rw [if_pos hn, if_neg (fun hh => h0 (hn.trans hh)), if_pos hn]
      · rw [if_neg hn]
        by_cases hk : n = k
        · rw [if_pos hk, if_pos hk]
        · rw [if_neg hk, if_neg hk, if_neg hn]

theorem build_action_queue_append (fns : FuncMap) (l1 l2 : List PyStr) :
    build_action_queue fns (l1 ++ l2) =
      build_action_queue fns l1 ++ build_action_queue fns l2 := by
  induction l1 with
  | nil => rfl
  | cons l t ih =>
    simp only [List.cons_append, build_action_queue]
    split
    · exact ih
    · split
      · exact ih
      · split
        · cases lookupFn fns (lastTok (pyStrip l)) <;>
            simp [ih, List.append_assoc]
        · simp [ih]

theorem splitNl_no_nl {a : PyStr} (h : ∀ c ∈ a, c ≠ '\n') :
    splitNl a = [a] := by
  induction a with
  | nil => rfl
  | cons c t ih =>
    have hc : c ≠ '\n' := h c (by simp)
    have ht : splitNl t = [t] := ih fun d hd => h d (by simp [hd])
    simp [splitNl, hc, ht]

theorem splitNl_append_nl {a : PyStr} (r : PyStr) (h : ∀ c ∈ a, c ≠ '\n') :
    splitNl (a ++ '\n' :: r) = a :: splitNl r := by
  induction a with
  | nil => simp [splitNl]
  | cons c t ih =>
    have hc : c ≠ '\n' := h c (by simp)
    have ht := ih fun d hd => h d (by simp [hd])
    simp [splitNl, hc, ht]

theorem splitNl_joinNl {bs : List PyStr} (hne : bs ≠ [])
    (h : ∀ b ∈ bs, ∀ c ∈ b, c ≠ '\n') : splitNl (joinNl bs) = bs := by
  induction bs with
  | nil => exact absurd rfl hne
  | cons b rest ih =>
    cases rest with
    | nil =>
      simp only [joinNl]
      exact splitNl_no_nl (h b (by simp))
    | cons b' rest' =>
      have hb : ∀ c ∈ b, c ≠ '\n' := h b (by simp)
      have hrest : splitNl (joinNl (b' :: rest')) = b' :: rest' :=
        ih (by simp) fun x hx => h x (by simp [hx])
      simp only [joinNl]
      rw [splitNl_append_nl (joinNl (b' :: rest')) hb, hrest]

theorem startsWithPy_false_of_head_ne {s : PyStr} {a b : Char} {ps qs : PyStr}
    (h : startsWithPy s (a :: ps) = true) (hne : a ≠ b) :
    startsWithPy s (b :: qs) = false := by
  obtain ⟨t, rfl, -⟩ := startsWithPy_cons h
  simp [startsWithPy, beq_iff_eq, hne]

theorem startsWithPy_ne_nil {s : PyStr} {a : Char} {ps : PyStr}
    (h : startsWithPy s (a :: ps) = true) : (s == []) = false := by
  obtain ⟨t, rfl, -⟩ := startsWithPy_cons h
  rfl


theorem extractBody_good (ls : List PyStr) :
    ∀ e ∈ (extractBody ls).1, GoodLine e := by
  induction ls with
  | nil => simp [extractBody]
  | cons l rest ih =>
    simp only [extractBody]
    split
    · simp
    · split
      · next hcond =>
        intro e he
        simp only [Bool.and_eq_true, bne_iff_ne, ne_eq,
          Bool.not_eq_eq_eq_not, Bool.not_true] at hcond
        rcases List.mem_cons.mp he with rfl | hmem
        · exact ⟨pyStrip_idem l, hcond.2⟩
        · exact ih e hmem
      · exact ih

theorem fnsGood_set {fns : FuncMap} {name : PyStr} {body : List PyStr}
    (hf : FnsGood fns) (hb : ∀ e ∈ body, GoodLine e) :
    FnsGood (setFn fns name body) := by
  intro n b hlb e he
  rw [lookupFn_setFn] at hlb
  by_cases h : n = name
  · rw [if_pos h] at hlb
    cases hlb
    exact hb e he
  · rw [if_neg h] at hlb
    exact hf n b hlb e he

theorem extractFunctionsGo_good :
    ∀ (fuel : Nat) (lines : List PyStr) (fns : FuncMap), FnsGood fns →
      FnsGood (extractFunctionsGo fuel lines fns) := by
  intro fuel
  induction fuel with
  | zero =>
    intro lines fns h
    cases lines <;> simpa [extractFunctionsGo] using h
  | succ fuel ih =>
    intro lines fns h
    cases lines with
    | nil => simpa [extractFunctionsGo] using h
    | cons l rest =>
      simp only [extractFunctionsGo]
      split
      · exact ih _ _ h
      · split
        · exact ih _ _ (fnsGood_set h (extractBody_good rest))
        · exact ih _ _ h

theorem build_action_queue_good {fns : FuncMap} (hf : FnsGood fns) :
    ∀ lines, ∀ e ∈ build_action_queue fns lines, GoodLine e := by
  intro lines
  induction lines with
  | nil => simp [build_action_queue]
  | cons l rest ih =>
    simp only [build_action_queue]
    split
    · exact ih
    · split
      · exact ih
      · split
        · intro e he
          rcases hlk : lookupFn fns (lastTok (pyStrip l)) with _ | body <;>
            rw [hlk] at he
          · simpa using ih e (by simpa using he)
          · rcases List.mem_append.mp he with hmem | hmem
            · exact hf _ _ hlk e hmem
            · exact ih e hmem
        · next hcond _ _ =>
          intro e he
          simp only [Bool.or_eq_true, not_or] at hcond
          rcases List.mem_cons.mp he with rfl | hmem
          · refine ⟨pyStrip_idem l, ?_⟩
            cases hh : startsWithPy (pyStrip l) HASH
            · rfl
            · exact absurd hh hcond.2
          · exact ih e hmem

theorem groupAux_roundtrip :
    ∀ (actions cur : List PyStr),
      (∀ a ∈ actions, ∀ ch ∈ a, ch ≠ '\n') →
      (∀ a ∈ cur, ∀ ch ∈ a, ch ≠ '\n') →
      ((groupAux actions cur).map splitNl).flatten = cur ++ actions := by
  intro actions
  induction actions with
  | nil =>
    intro cur _ hcur
    rcases hc : cur with _ | ⟨x, xs⟩
    · rfl
    · have : splitNl (joinNl (x :: xs)) = x :: xs :=
        splitNl_joinNl (by simp) (by rw [← hc]; exact hcur)
      simp [groupAux, this]
  | cons a rest ih =>
    intro cur hact hcur
    have hrest : ∀ x ∈ rest, ∀ ch ∈ x, ch ≠ '\n' :=
      fun x hx => hact x (by simp [hx])
    have ha : ∀ ch ∈ a, ch ≠ '\n' := hact a (by simp)
    simp only [groupAux]
    split
    · next hcont =>
      have hcur' : ∀ x ∈ cur ++ [a], ∀ ch ∈ x, ch ≠ '\n' := by
        intro x hx
        rcases List.mem_append.mp hx with hx | hx
        · exact hcur x hx
        · simp only [List.mem_singleton] at hx
          rw [hx]
          exact ha
      rw [ih (cur ++ [a]) hrest hcur']
      simp
    · split
      · next hcont hnil =>
        have : cur = [] := by simpa using hnil
        rw [ih [a] hrest (by simpa using ha), this]
        rfl
      · next hcont hnil =>
        have hcur_ne : cur ≠ [] := by
          intro hc
          rw [hc] at hnil
          simp at hnil
        have hjoin : splitNl (joinNl cur) = cur := splitNl_joinNl hcur_ne hcur
        have hrec := ih [a] hrest (by simpa using ha)
        simp only [List.map_cons, List.flatten_cons, hjoin, hrec]
        simp

/-! ## Claims about the parser -/

/-- C1: the claim states that the Scenario B input (a `login` macro with two
body lines, then `CALL login`, then `Wait 2 seconds`) parses to a queue of
exactly three entries.  Evaluating the code at that input instead yields
five entries: `_build_action_queue` skips only the marker lines in its
second pass, not the macro body lines, so the body is enqueued once as
plain lines and a second time by the call expansion.  The repository's own
test `test_function_call_expansion` asserts a three-entry queue for the
same shape of input, so the code contradicts its own test suite. -/
theorem C1_scenario_b_eval :
    (parseLines initParser
        [pys "DEFINE_FUNCTION login", pys "Enter username", pys "Enter password",
         pys "END_FUNCTION", pys "CALL login", pys "Wait 2 seconds"]).action_queue =
      [pys "Enter username", pys "Enter password", pys "Enter username",
       pys "Enter password", pys "Wait 2 seconds"] ∧
    (parseLines initParser
        [pys "DEFINE_FUNCTION login", pys "Enter username", pys "Enter password",
         pys "END_FUNCTION", pys "CALL login", pys "Wait 2 seconds"]).action_queue.length ≠ 3 :=
  ⟨by decide, by decide⟩

/-- C5: the claim states the action queue is fresh per invocation.  In the
code neither `run` nor `parse` ever clears `self.action_queue` (or
`self.functions`), so a second `parse` on the same parser appends to the
previous queue: parsing `Alpha` and then `Beta` leaves the queue
`[Alpha, Beta]`, not `[Beta]`. -/
theorem C5_queue_carryover_eval :
    (parseLines (parseLines initParser [pys "Alpha"]) [pys "Beta"]).action_queue =
      [pys "Alpha", pys "Beta"] ∧
    (parseLines (parseLines initParser [pys "Alpha"]) [pys "Beta"]).action_queue ≠
      [pys "Beta"] :=
  ⟨by decide, by decide⟩

/-- C8: a call line whose name is not in the functions dict contributes
nothing to the queue, and removing it from the line sequence leaves the
queue built from the surrounding lines unchanged — so every surrounding
instruction is present, in its original relative order, unaffected by the
undefined call. -/
theorem C8_undefined_call_skipped (fns : FuncMap) (l1 l2 : List PyStr)
    (c : PyStr) (hcall : startsWithPy (pyStrip c) CALL_FUNCTION = true)
    (hundef : lookupFn fns (lastTok (pyStrip c)) = none) :
    build_action_queue fns (l1 ++ c :: l2) = build_action_queue fns (l1 ++ l2) := by
  have hC : startsWithPy (pyStrip c) ('C' :: pys "ALL") = true := hcall
  have hne : (pyStrip c == []) = false := startsWithPy_ne_nil hC
  have hH : startsWithPy (pyStrip c) HASH = false :=
    startsWithPy_false_of_head_ne hC (by decide)
  have hD : startsWithPy (pyStrip c) FUNCTION_START = false :=
    startsWithPy_false_of_head_ne hC (by decide)
  have hE : startsWithPy (pyStrip c) FUNCTION_END = false :=
    startsWithPy_false_of_head_ne hC (by decide)
  have hsingle : build_action_queue fns (c :: l2) = build_action_queue fns l2 := by
    simp [build_action_queue, hne, hH, hD, hE, hcall, hundef]
  rw [build_action_queue_append, build_action_queue_append, hsingle]

/-- Witness for C8 at a concrete input: a `CALL logout` line between two
instructions, with only `login` defined. -/
theorem C8_witness :
    build_action_queue [(pys "login", [pys "Type username"])]
        ([pys "Navigate to site"] ++ pys "CALL logout" :: [pys "Click button"]) =
      build_action_queue [(pys "login", [pys "Type username"])]
        ([pys "Navigate to site"] ++ [pys "Click button"]) :=
  C8_undefined_call_skipped _ _ _ _ (by decide) (by decide)

/-- C9: the claim also asserts that no queued instruction ever contains the
comment marker; but the parser only drops lines that start (after
stripping) with the marker, so a mid-line `#` survives into the queue. -/
theorem C9_mid_line_hash_survives :
    (parseLines initParser [pys "Click the # button"]).action_queue =
      [pys "Click the # button"] ∧
    containsSub HASH (pys "Click the # button") = true :=
  ⟨by decide, by decide⟩

/-- C9 amended: starting from a fresh parser, every instruction placed in
the action queue and every recorded macro body line is whitespace-trimmed
(stripping it again changes nothing) and never starts with the comment
marker; it may still contain the marker mid-line. -/
theorem C9_queue_trimmed_no_leading_hash (lines : List PyStr) :
    (∀ e ∈ (parseLines initParser lines).action_queue,
        pyStrip e = e ∧ startsWithPy e HASH = false) ∧
    (∀ n b, lookupFn (parseLines initParser lines).functions n = some b →
        ∀ e ∈ b, pyStrip e = e ∧ startsWithPy e HASH = false) := by
  have hf : FnsGood (extract_functions lines []) := by
    apply extractFunctionsGo_good
    intro n b h
    simp [lookupFn] at h
  constructor
  · intro e he
    simp only [parseLines, initParser, List.nil_append] at he
    exact build_action_queue_good hf lines e he
  · intro n b hb e he
    simp only [parseLines, initParser] at hb
    exact hf n b hb e he

/-- Witness for C9 amended: a padded instruction line comes out stripped
and without a leading marker. -/
theorem C9_witness :
    pyStrip (pys "Do thing") = pys "Do thing" ∧
      startsWithPy (pys "Do thing") HASH = false :=
  (C9_queue_trimmed_no_leading_hash [pys "  Do thing  "]).1
    (pys "Do thing") (by decide)

/-- C10: `group_related_actions` is content-preserving on newline-free
instructions — splitting each returned block on line breaks and
concatenating recovers exactly the input list, in order.  (The embedding is
pure; the source function also never mutates its argument, only reading
`actions` and appending to freshly created lists.) -/
theorem C10_group_roundtrip (actions : List PyStr)
    (h : ∀ a ∈ actions, ∀ ch ∈ a, ch ≠ '\n') :
    ((group_related_actions actions).map splitNl).flatten = actions := by
  simpa using groupAux_roundtrip actions [] h (by simp)

/-- Witness for C10 at a concrete grouped-and-ungrouped mix. -/
theorem C10_witness :
    ((group_related_actions
        [pys "Navigate to site", pys "Then click button", pys "And type text",
         pys "Take screenshot"]).map splitNl).flatten =
      [pys "Navigate to site", pys "Then click button", pys "And type text",
       pys "Take screenshot"] :=
  C10_group_roundtrip _ (by decide)

/-! ## Claims about the orchestrator -/

/-- C2: with `retry_attempts = 1`, processing an instruction whose code
generation succeeds performs exactly one engine execution; and when that
single attempt fails, the run loop stops at once — no later instruction in
the queue triggers any further generation or execution — and the run
returns the overall failure flag. -/
theorem C2_retry_one_fail_fast {σ : Type} (o : Oracle σ) (a : PyStr)
    (rest : List PyStr) (s s1 : σ) (code : PyStr)
    (hgen : o.gen s a none = (Except.ok code, s1)) :
    execute_action o 1 a s = ((o.exec s1 code).1.1, (o.exec s1 code).2, 1) ∧
    ((o.exec s1 code).1.1 = false →
      runQueue o 1 (a :: rest) s = (false, (o.exec s1 code).2, 1)) := by
  have hexec : execute_action o 1 a s =
      ((o.exec s1 code).1.1, (o.exec s1 code).2, 1) := by
    show executeActionGo o 1 a (0 + 1) none s 0 = _
    simp only [executeActionGo, hgen]
    cases hb : (o.exec s1 code).1.1 <;> simp [hb]
  refine ⟨hexec, fun hfail => ?_⟩
  simp only [runQueue, hexec, hfail]
  simp

/-- Witness for C2: a one-element tail after a failing first instruction,
with a trivial session state. -/
theorem C2_witness :
    runQueue
      (Oracle.mk (fun s _ _ => (Except.ok (pys "env.wait(1)"), s))
        (fun s _ => ((false, some (pys "NoSuchElementException: x")), s)))
      1 [pys "Open page", pys "Click button"] () = (false, (), 1) :=
  (C2_retry_one_fail_fast
      (Oracle.mk (fun s _ _ => (Except.ok (pys "env.wait(1)"), s))
        (fun s _ => ((false, some (pys "NoSuchElementException: x")), s)))
      (pys "Open page") [pys "Click button"] () () (pys "env.wait(1)")
      rfl).2 rfl

theorem containsSub_nil (s : PyStr) : containsSub [] s = true := by
  cases s <;> simp [containsSub, startsWithPy]

theorem startsWithPy_append_extend {s p : PyStr} (t : PyStr)
    (h : startsWithPy s p = true) : startsWithPy (s ++ t) p = true := by
  induction p generalizing s with
  | nil => cases s ++ t <;> rfl
  | cons a ps ih =>
    obtain ⟨u, rfl, hu⟩ := startsWithPy_cons h
    simp [startsWithPy, ih hu]

theorem containsSub_append_of_left {sub s : PyStr} (t : PyStr)
    (h : containsSub sub s = true) : containsSub sub (s ++ t) = true := by
  induction s with
  | nil =>
    cases sub with
    | nil => exact containsSub_nil t
    | cons a b => simp [containsSub, startsWithPy] at h
  | cons c s' ih =>
    simp only [containsSub, Bool.or_eq_true] at h
    rcases h with h | h
    · have := startsWithPy_append_extend t h
      simp only [List.cons_append, containsSub, Bool.or_eq_true]
      exact Or.inl (by simpa using this)
    · simp only [List.cons_append, containsSub, Bool.or_eq_true]
      exact Or.inr (ih h)

theorem containsSub_self_append (sub t : PyStr) :
    containsSub sub (sub ++ t) = true := by
  simpa using containsSub_middle sub [] t

theorem format_error_contains (k m : PyStr) (tb : List PyStr) :
    containsSub k (format_error k m tb) = true ∧
      containsSub m (format_error k m tb) = true := by
  have hk : containsSub k (k ++ pys ": " ++ m) = true :=
    containsSub_append_of_left _ (containsSub_self_append k (pys ": "))
  have hm : containsSub m (k ++ pys ": " ++ m) = true := by
    simpa using containsSub_middle m (k ++ pys ": ") []
  unfold format_error
  dsimp only
  split
  · exact ⟨containsSub_append_of_left _ (containsSub_append_of_left _ hk),
      containsSub_append_of_left _ (containsSub_append_of_left _ hm)⟩
  · exact ⟨hk, hm⟩

/-! ## Claims about the execution engine -/


/-- C4 counterexample: the engine handler reads `except Exception`, so a
snippet raising a `BaseException` outside the `Exception` class (here
`SystemExit`) is not converted into a `(False, message)` pair — the fault
propagates to the caller. -/
theorem C4_systemexit_propagates :
    (ActionEngine.execute fatalSem ⟨true, 0, 0⟩ (pys "raise SystemExit")).1 =
      Except.error (pys "SystemExit", []) := rfl

/-- C4 amended: a snippet whose execution raises an ordinary `Exception`
(kind, message, traceback) never propagates: the engine returns the
`(False, message)` pair, and the message contains both the exception kind
name and its message text.  The Scenario C snippet raising
`ValueError: boom` is the witness instance. -/
theorem C4_exception_to_result (e : ActionEngine) (sem : ExecSem)
    (code k m : PyStr) (tb : List PyStr)
    (h : sem code = RunOutcome.exn k m tb) :
    (ActionEngine.execute sem e code).1 =
      Except.ok (false, some (format_error k m tb)) ∧
    containsSub k (format_error k m tb) = true ∧
    containsSub m (format_error k m tb) = true := by
  refine ⟨?_, (format_error_contains k m tb).1, (format_error_contains k m tb).2⟩
  simp [ActionEngine.execute, h]


/-- Witness for C4 amended at the Scenario C snippet. -/
theorem C4_witness :
    (ActionEngine.execute semBoom ⟨true, 0, 0⟩
        (pys "raise ValueError(\x27boom\x27)")).1 =
      Except.ok (false, some (format_error (pys "ValueError") (pys "boom") tbBoom)) ∧
    containsSub (pys "ValueError")
        (format_error (pys "ValueError") (pys "boom") tbBoom) = true ∧
    containsSub (pys "boom")
        (format_error (pys "ValueError") (pys "boom") tbBoom) = true :=
  C4_exception_to_result ⟨true, 0, 0⟩ semBoom
    (pys "raise ValueError(\x27boom\x27)") (pys "ValueError") (pys "boom")
    tbBoom (by decide)

/-! ## Claims about the code generator -/

theorem providerGenerate_full (model : ModelFn) (st : GenState) (p : PyStr)
    (hm : ∀ n, ∃ t, model n p = Except.ok t) :
    ∃ t st2, providerGenerate model st p = (Except.ok t, st2) ∧
      st2.provider_calls = st.provider_calls + 1 ∧
      st2.cache_enabled = st.cache_enabled ∧
      st2.code_cache = st.code_cache ∧
      cacheLookup st2.prompt_cache p = some t := by
  unfold providerGenerate
  dsimp only
  rcases hcl : cacheLookup st.prompt_cache p with _ | t
  · obtain ⟨t, ht⟩ := hm st.model_calls
    rw [ht]
    exact ⟨_, _, rfl, rfl, rfl, rfl, cacheLookup_set_self _ _ _⟩
  · exact ⟨t, _, rfl, rfl, rfl, rfl, hcl⟩

theorem generate_with_retry_ok {model : ModelFn} {st : GenState} {p t : PyStr}
    {st2 : GenState} (h : providerGenerate model st p = (Except.ok t, st2)) :
    generate_with_retry model st p = (Except.ok t, st2) := by
  unfold generate_with_retry
  show generateWithRetryGo model p (2 + 1) st = _
  simp only [generateWithRetryGo, h]

theorem cgGenerate_hit {model : ModelFn} {st : GenState} {i : PyStr}
    {c e : Option PyStr} {code : PyStr} (hen : st.cache_enabled = true)
    (hc : cacheLookup st.code_cache (cacheKey i c e) = some code) :
    cgGenerate model st i c e = (Except.ok code, st) := by
  unfold cgGenerate
  dsimp only
  rw [hen]
  simp [hc]

theorem cgGenerate_miss (model : ModelFn) (st : GenState) (i : PyStr)
    (c e : Option PyStr)
    (hmiss : (if st.cache_enabled then
        cacheLookup st.code_cache (cacheKey i c e) else none) = none)
    (hm : ∀ n, ∃ t, model n (build_prompt i c e) = Except.ok t) :
    ∃ t st2, cgGenerate model st i c e = (Except.ok (clean_code t), st2) ∧
      st2.provider_calls = st.provider_calls + 1 ∧
      st2.cache_enabled = st.cache_enabled ∧
      st2.code_cache = (if st.cache_enabled = true then
          cacheSet st.code_cache (cacheKey i c e) (clean_code t)
        else st.code_cache) ∧
      cacheLookup st2.prompt_cache (build_prompt i c e) = some t := by
  obtain ⟨t, st1, hpg, hpc, hce, hcc, hpl⟩ :=
    providerGenerate_full model st (build_prompt i c e) hm
  have hr := generate_with_retry_ok hpg
  unfold cgGenerate
  dsimp only
  rw [hmiss, hr]
  cases hb : st1.cache_enabled
  · have hsen : st.cache_enabled = false := by rw [← hce, hb]
    refine ⟨t, st1, ?_, hpc, hce, ?_, hpl⟩
    · simp [hb]
    · rw [hsen]
      simp [hcc]
  · have hsen : st.cache_enabled = true := by rw [← hce, hb]
    refine ⟨t,
      { st1 with
          code_cache := cacheSet st1.code_cache (cacheKey i c e) (clean_code t) },
      ?_, ?_, ?_, ?_, ?_⟩
    · simp [hb]
    · simpa using hpc
    · simpa using hce
    · rw [hsen]
      simp [hcc]
    · simpa using hpl

/-- C3: when the provider succeeds on the prompt of the given tuple (the
reading under which the claim and the repository's own caching tests are
stated), two successive `generate` calls with the identical
(instruction, context, prior_error) tuple invoke `GeminiProvider.generate`
at most once in total when caching is enabled, and exactly twice when it is
disabled. -/
theorem C3_generate_twice (model : ModelFn) (st : GenState) (i : PyStr)
    (c e : Option PyStr)
    (hm : ∀ n, ∃ t, model n (build_prompt i c e) = Except.ok t) :
    (st.cache_enabled = true →
      (cgGenerate model (cgGenerate model st i c e).2 i c e).2.provider_calls ≤
        st.provider_calls + 1) ∧
    (st.cache_enabled = false →
      (cgGenerate model (cgGenerate model st i c e).2 i c e).2.provider_calls =
        st.provider_calls + 2) := by
  constructor
  · intro hen
    rcases hc : cacheLookup st.code_cache (cacheKey i c e) with _ | code
    · obtain ⟨t, st2, h1, hpc, hce, hcc, -⟩ :=
        cgGenerate_miss model st i c e (by simp [hen, hc]) hm
      rw [h1]
      have hhit : cacheLookup st2.code_cache (cacheKey i c e) =
          some (clean_code t) := by
        rw [hcc, if_pos hen]
        exact cacheLookup_set_self _ _ _
      rw [cgGenerate_hit (hce.trans hen) hhit]
      simp [hpc]
    · rw [cgGenerate_hit hen hc]
      dsimp only
      rw [cgGenerate_hit hen hc]
      simp
  · intro hen
    obtain ⟨t, st2, h1, hpc, hce, hcc, hpl⟩ :=
      cgGenerate_miss model st i c e (by simp [hen]) hm
    rw [h1]
    dsimp only
    obtain ⟨t', st3, h2, hpc2, -, -, -⟩ :=
      cgGenerate_miss model st2 i c e (by rw [hce]; simp [hen]) hm
    rw [h2]
    dsimp only
    rw [hpc2, hpc]

/-- Witness for C3 with a provider that always returns a fixed snippet:
enabled caching gives at most one invocation across the two calls, disabled
caching gives exactly two. -/
theorem C3_witness :
    ((cgGenerate (fun _ _ => Except.ok (pys "env.wait(1)"))
        ((cgGenerate (fun _ _ => Except.ok (pys "env.wait(1)"))
            ⟨true, [], [], 0, 0⟩ (pys "Click button") none none).2)
        (pys "Click button") none none).2).provider_calls ≤ 0 + 1 ∧
    ((cgGenerate (fun _ _ => Except.ok (pys "env.wait(1)"))
        ((cgGenerate (fun _ _ => Except.ok (pys "env.wait(1)"))
            ⟨false, [], [], 0, 0⟩ (pys "Click button") none none).2)
        (pys "Click button") none none).2).provider_calls = 0 + 2 :=
  ⟨(C3_generate_twice (fun _ _ => Except.ok (pys "env.wait(1)"))
      ⟨true, [], [], 0, 0⟩ (pys "Click button") none none
      (fun _ => ⟨pys "env.wait(1)", rfl⟩)).1 rfl,
   (C3_generate_twice (fun _ _ => Except.ok (pys "env.wait(1)"))
      ⟨false, [], [], 0, 0⟩ (pys "Click button") none none
      (fun _ => ⟨pys "env.wait(1)", rfl⟩)).2 rfl⟩

/-- C7 counterexample: the cache key is the colon-joined f-string, so the
distinct tuples `("a:b", "c", None)` and `("a", "b:c", None)` render to the
same key.  After generating for the first tuple, a generate call for the
second — distinct — tuple returns the first tuple's cached snippet and does
not query the provider again, refuting the claim that any two distinct
tuples are distinct cache keys. -/
theorem C7_key_collision :
    ((pys "a:b", some (pys "c")) ≠ ((pys "a" : PyStr), some (pys "b:c"))) ∧
    cacheKey (pys "a:b") (some (pys "c")) none =
      cacheKey (pys "a") (some (pys "b:c")) none ∧
    (cgGenerate (fun _ _ => Except.ok (pys "env.refresh()"))
        ((cgGenerate (fun _ _ => Except.ok (pys "env.refresh()"))
            ⟨true, [], [], 0, 0⟩ (pys "a:b") (some (pys "c")) none).2)
        (pys "a") (some (pys "b:c")) none).1 =
      (cgGenerate (fun _ _ => Except.ok (pys "env.refresh()"))
        ⟨true, [], [], 0, 0⟩ (pys "a:b") (some (pys "c")) none).1 ∧
    (cgGenerate (fun _ _ => Except.ok (pys "env.refresh()"))
        ((cgGenerate (fun _ _ => Except.ok (pys "env.refresh()"))
            ⟨true, [], [], 0, 0⟩ (pys "a:b") (some (pys "c")) none).2)
        (pys "a") (some (pys "b:c")) none).2.provider_calls =
      ((cgGenerate (fun _ _ => Except.ok (pys "env.refresh()"))
          ⟨true, [], [], 0, 0⟩ (pys "a:b") (some (pys "c")) none).2).provider_calls :=
  ⟨by decide, by decide, rfl, rfl⟩

/-- C7 amended: cache keys are the colon-joined renderings of the input
tuples, so tuples with equal renderings share an entry; a generate call
whose rendering differs from every cached key misses the cache, queries the
provider exactly once (when the provider succeeds), and caches its result
under that rendering. -/
theorem C7_distinct_rendered_keys (model : ModelFn) (st : GenState)
    (i : PyStr) (c e : Option PyStr) (hen : st.cache_enabled = true)
    (hmiss : cacheLookup st.code_cache (cacheKey i c e) = none)
    (hm : ∀ n, ∃ t, model n (build_prompt i c e) = Except.ok t) :
    ∃ code st2, cgGenerate model st i c e = (Except.ok code, st2) ∧
      st2.provider_calls = st.provider_calls + 1 ∧
      cacheLookup st2.code_cache (cacheKey i c e) = some code := by
  obtain ⟨t, st2, h1, hpc, hce, hcc, -⟩ :=
    cgGenerate_miss model st i c e (by simp [hen, hmiss]) hm
  refine ⟨clean_code t, st2, h1, hpc, ?_⟩
  rw [hcc, if_pos hen]
  exact cacheLookup_set_self _ _ _

/-- Witness for C7 amended at a concrete fresh state and tuple. -/
theorem C7_witness :
    ∃ code st2,
      cgGenerate (fun _ _ => Except.ok (pys "env.scroll(\x27down\x27)"))
          ⟨true, [], [], 0, 0⟩ (pys "Scroll down") (some (pys "ctx"))
          (some (pys "err")) = (Except.ok code, st2) ∧
      st2.provider_calls = 0 + 1 ∧
      cacheLookup st2.code_cache
          (cacheKey (pys "Scroll down") (some (pys "ctx")) (some (pys "err"))) =
        some code :=
  C7_distinct_rendered_keys (fun _ _ => Except.ok (pys "env.scroll(\x27down\x27)"))
    ⟨true, [], [], 0, 0⟩ (pys "Scroll down") (some (pys "ctx"))
    (some (pys "err")) rfl rfl
    (fun _ => ⟨pys "env.scroll(\x27down\x27)", rfl⟩)


/-- C6 counterexample: the snippet defining `main` with one ordinary body
line is a defined callable with no invocation, yet post-processing returns
it unchanged — no synthetic invocation is appended (the output still has
zero top-level statement lines), because the `has_direct_calls` test strips
each line first and therefore mistakes the indented body statement for a
top-level call. -/
theorem C6_def_body_not_invoked :
    clean_code (pys "def main(env):\n    env.wait(1)") =
      pys "def main(env):\n    env.wait(1)" ∧
    topLevelStmtCount (pys "def main(env):\n    env.wait(1)") = 0 :=
  ⟨by decide, by decide⟩

/-- C6 amended: post-processing appends a synthetic invocation only when
every non-blank line of the (already normalised) snippet starts, after
stripping, with one of `def `/`class `/`import `/`from `/`#`; a snippet
with any other line — including an indented plain-statement body — is
returned unmodified, and among definition-only snippets one containing
`def main` (and no class) gets exactly the call `main(env)` appended. -/
theorem C6_invocation_only_when_definition_only (code : PyStr)
    (hnorm : cleanPre code = code) :
    (hasDirectCalls code = true → clean_code code = code) ∧
    (hasDirectCalls code = false →
      containsSub (pys "class ") code = false →
      containsSub (pys "def main") code = true →
      clean_code code = code ++ pys "\n\n# Execute\nmain(env)") := by
  constructor
  · intro hd
    unfold clean_code
    rw [hnorm]
    unfold augmentCode
    simp [hd]
  · intro hnd hclass hmain
    have hdef : containsSub (pys "def ") code = true :=
      containsSub_mono (by decide) hmain
    unfold clean_code
    rw [hnorm]
    unfold augmentCode
    simp [hdef, hnd, hclass, hmain]

/-- Witness for C6 amended: a definition-only `main` snippet (comment body)
gets the synthetic invocation appended once. -/
theorem C6_witness :
    clean_code (pys "def main(env):\n# body") =
      pys "def main(env):\n# body" ++ pys "\n\n# Execute\nmain(env)" :=
  (C6_invocation_only_when_definition_only (pys "def main(env):\n# body")
      (by decide)).2 (by decide) (by decide) (by decide)
